import Mathlib

/-!
Verification of the timereport pipeline (generate-github-report.py,
generate-slack-report.py, format-time-report.py).

Timestamps (epoch seconds) and day counts are modeled as `Int`.  Python's
`int(x)` applied to a quotient of integers truncates toward zero, which is
`Int.tdiv`; Python's floor quotient is `Int.fdiv`.  Lean's `/` and `%` on
`Int` are Euclidean (`Int.ediv`/`Int.emod`), which agree with floor
division for positive divisors.
-/

namespace Timereport

/-- A work session: a time interval in epoch seconds
(`{'start': ..., 'end': ...}` dictionaries in the scripts).
The Python key `end` is a Lean keyword, rendered here as `stop`. -/
structure Session where
  start : Int
  stop : Int
deriving DecidableEq, Repr

/-- Functional form of the merging loop of `generate-github-report.py`,
lines 210-225: `cur` is the session currently being accumulated
(`merged_sessions[-1]`).  A candidate whose start is `≤ cur.stop` is merged
into `cur` (the end becoming the max of the two ends); otherwise `cur` is
emitted and the candidate starts a new accumulating session. -/
def mergeInto (cur : Session) : List Session → List Session
  | [] => [cur]
  | c :: rest =>
    if c.start ≤ cur.stop then
      mergeInto ⟨cur.start, max cur.stop c.stop⟩ rest
    else
      cur :: mergeInto c rest

/-- The session merger (`merged_sessions` loop, generate-github-report.py
lines 206-225) applied to an already-sorted candidate list: the first
candidate is always appended (the list starts empty), every later one is
handled by `mergeInto`. -/
def mergeSessions : List Session → List Session
  | [] => []
  | c :: rest => mergeInto c rest

/-- A point `x` is covered by a list of sessions if it lies in one of the
(closed) intervals. -/
def covers (l : List Session) (x : Int) : Prop :=
  ∃ s ∈ l, s.start ≤ x ∧ x ≤ s.stop

instance (l : List Session) (x : Int) : Decidable (covers l x) := by
  unfold covers; infer_instance

/-- Strict separation of two sessions: the second starts strictly after the
first ends, i.e. the merge trigger `c.start ≤ cur.stop` fails. -/
def sep (s t : Session) : Prop := s.stop < t.start

instance (s t : Session) : Decidable (sep s t) := by
  unfold sep; infer_instance

/-- Two-digit zero padding, as in strftime's %d, %H, %M. -/
def pad2 (n : Int) : String :=
  if 0 ≤ n ∧ n < 10 then "0" ++ toString n else toString n

/-- Four-digit zero padding for strftime's %Y. -/
def pad4 (n : Int) : String :=
  if 0 ≤ n ∧ n < 10 then "000" ++ toString n
  else if 0 ≤ n ∧ n < 100 then "00" ++ toString n
  else if 0 ≤ n ∧ n < 1000 then "0" ++ toString n
  else toString n

/-- Month abbreviations produced by strftime's %b in the C locale. -/
def monthAbbrev (m : Int) : String :=
  if m = 1 then "Jan" else if m = 2 then "Feb" else if m = 3 then "Mar"
  else if m = 4 then "Apr" else if m = 5 then "May" else if m = 6 then "Jun"
  else if m = 7 then "Jul" else if m = 8 then "Aug" else if m = 9 then "Sep"
  else if m = 10 then "Oct" else if m = 11 then "Nov" else "Dec"

/-- Days since 1970-01-01 to proleptic Gregorian (year, month, day)
(Howard Hinnant's civil_from_days; `/` and `%` on `Int` are Euclidean,
which for these positive divisors is floor division). -/
def civilFromDays (z0 : Int) : Int × Int × Int :=
  let z := z0 + 719468
  let era := z / 146097
  let doe := z % 146097
  let yoe := (doe - doe / 1460 + doe / 36524 - doe / 146096) / 365
  let y := yoe + era * 400
  let doy := doe - (365 * yoe + yoe / 4 - yoe / 100)
  let mp := (5 * doy + 2) / 153
  let d := doy - (153 * mp + 2) / 5 + 1
  let m := mp + (if mp < 10 then 3 else (-9 : Int))
  (y + (if m ≤ 2 then 1 else 0), m, d)

/-- strftime('%Y-%m-%d') of a calendar date given as days since 1970-01-01. -/
def fmtYmd (days : Int) : String :=
  let c := civilFromDays days
  pad4 c.1 ++ "-" ++ pad2 c.2.1 ++ "-" ++ pad2 c.2.2

/-- datetime.fromtimestamp(t).strftime('%d %b %Y, %H:%M'), with the local
timezone modeled as UTC: epoch seconds to 'DD Mon YYYY, HH:MM'. -/
def formatTimestamp (t : Int) : String :=
  let days := t / 86400
  let secs := t % 86400
  let c := civilFromDays days
  pad2 c.2.2 ++ " " ++ monthAbbrev c.2.1 ++ " " ++ pad4 c.1 ++ ", "
    ++ pad2 (secs / 3600) ++ ":" ++ pad2 ((secs % 3600) / 60)

/-- get_date_range (generate-github-report.py lines 29-45; identical in
generate-slack-report.py lines 36-52) in the default branch where no
explicit dates are given.  `today` is the current local calendar date as
days since 1970-01-01; `datetime.weekday()` (0 = Monday .. 6 = Sunday) is
`(today + 3) % 7` because 1970-01-01 was a Thursday, and subtracting
`timedelta(days=k)` is integer subtraction on day numbers. -/
def get_date_range_days (today : Int) : Int × Int :=
  let current_day := (today + 3) % 7
  if current_day = 0 then (today - 7, today - 1)
  else (today - current_day, today)

/-- get_date_range including the strftime('%Y-%m-%d') formatting of the two
returned dates. -/
def get_date_range (today : Int) : String × String :=
  let r := get_date_range_days today
  (fmtYmd r.1, fmtYmd r.2)

/-- A task as exchanged between the scripts as JSON:
name, sessions, and the sort key (earliest contributing timestamp). -/
structure Task where
  name : String
  sessions : List Session
  sort_timestamp : Int
deriving DecidableEq, Repr

/-- The sort `tasks.sort(key=lambda t: t['sort_timestamp'])` of
format-time-report.py line 37: Python's list.sort is a stable sort
ascending by the key, modeled by the stable `List.mergeSort`. -/
def sortTasks (tasks : List Task) : List Task :=
  tasks.mergeSort (fun a b => decide (a.sort_timestamp ≤ b.sort_timestamp))

/-- The fixed report header emitted by format_time_report
(format-time-report.py lines 40-44), one entry per output line. -/
def reportHeader : List String :=
  ["# Time Entry Submission",
   "# Review and confirm the sessions below:",
   "# Save and close this file to submit, or delete all content to cancel",
   "",
   "tasks:"]

/-- One session line (format-time-report.py lines 52-56):
`f"      - {formatted_date}, {duration_minutes} min"` where
`duration_minutes = int((end - start) / 60)`; Python's int() truncates the
quotient toward zero, which is `Int.tdiv`. -/
def renderSession (s : Session) : String :=
  "      - " ++ formatTimestamp s.start ++ ", "
    ++ toString ((s.stop - s.start).tdiv 60) ++ " min"

/-- The lines emitted for one task (format-time-report.py lines 47-56). -/
def renderTask (t : Task) : List String :=
  ("  - taskName: \"" ++ t.name ++ "\"") :: "    focus:" :: t.sessions.map renderSession

/-- format_time_report (format-time-report.py lines 31-58).  The Python
function first returns None on an empty list, then sorts the caller's list
IN PLACE via list.sort; the mutation is modeled by explicit state passing:
the first component is the state of the argument list after the call, the
second the returned report ('\n'.join of the output lines). -/
def format_time_report (tasks : List Task) : List Task × Option String :=
  if tasks = [] then (tasks, none)
  else
    let sorted := sortTasks tasks
    (sorted, some (String.intercalate "\n" (reportHeader ++ (sorted.map renderTask).flatten)))

/-- Python truthiness test `if not output` on an optional string:
true for None and for the empty string. -/
def strFalsy : Option String → Bool
  | none => true
  | some s => s.isEmpty

/-- The tail of main in format-time-report.py (lines 92-105) after the
input has been parsed into a task list, with no -o option: returns
(process exit code, stdout lines, stderr lines).  `sys.exit(0)` after the
"No tasks to report" message and the implicit normal end of main both give
exit code 0. -/
def format_report_main (tasks : List Task) : Nat × List String × List String :=
  let r := format_time_report tasks
  if strFalsy r.2 then (0, [], ["No tasks to report"])
  else (0, [r.2.getD ""], [])

/-- Word characters for the regex \b and \w tests (ASCII model of
Python re). -/
def isWordChar (c : Char) : Bool := c.isAlphanum || c == '_'

/-- Whitespace matched by the regex \s (ASCII model). -/
def isSpaceChar (c : Char) : Bool :=
  c == ' ' || c == '\t' || c == '\n' || c == '\r' || c == '\x0b' || c == '\x0c'

/-- The regex \b test at a position whose first matched character is a word
character: satisfied at the string start or after a non-word character.
`prev` is the character immediately before the position, if any. -/
def boundaryBefore (prev : Option Char) : Bool :=
  match prev with
  | none => true
  | some c => !(isWordChar c)

/-- Match the regex `\beng\s*[#-]?\s*(\d+)\b` (with re.IGNORECASE, from
extract_eng_tag and clean_eng_tag_from_title of generate-github-report.py)
at the start of `cs`, where `prev` is the character just before `cs` in the
whole string.  Greedy matching needs no backtracking here: `\s*`, `[#-]?`
and `\d+` consume disjoint character classes, and a failed trailing `\b`
cannot be repaired by shortening `\d+` (the next character would then be a
digit, itself a word character).  Returns the captured digits and the
suffix after the matched region. -/
def matchEngAt (prev : Option Char) (cs : List Char) : Option (List Char × List Char) :=
  if boundaryBefore prev then
    match cs with
    | c1 :: c2 :: c3 :: rest =>
      if c1.toLower == 'e' && c2.toLower == 'n' && c3.toLower == 'g' then
        let r1 := rest.dropWhile isSpaceChar
        let r2 := match r1 with
          | c :: tl => if c == '#' || c == '-' then tl.dropWhile isSpaceChar else r1
          | [] => r1
        let digits := r2.takeWhile Char.isDigit
        let r3 := r2.dropWhile Char.isDigit
        if digits.isEmpty then none
        else
          match r3 with
          | [] => some (digits, [])
          | c :: _ => if isWordChar c then none else some (digits, r3)
      else none
    | _ => none
  else none

/-- re.search for the eng pattern: try every position left to right,
tracking the previous character for the \b test; return the first match's
captured digits. -/
def searchEng (prev : Option Char) : List Char → Option (List Char)
  | [] => none
  | c :: cs =>
    match matchEngAt prev (c :: cs) with
    | some (digits, _) => some digits
    | none => searchEng (some c) cs

/-- extract_eng_tag (generate-github-report.py lines 47-52): the first
match of `\beng\s*[#-]?\s*(\d+)\b` (case-insensitive) in the title yields
"eng" + digits, otherwise None. -/
def extract_eng_tag (title : String) : Option String :=
  (searchEng none title.toList).map (fun ds => "eng" ++ String.mk ds)

/-- One pass of `re.sub(r'\beng\s*[#-]?\s*\d+\b', '', ...)`:
`skip > 0` means this character is inside a matched region being deleted;
`prev` is the previous character of the ORIGINAL string (re.sub evaluates
\b against the original text and resumes scanning right after each
non-overlapping match). -/
def removeEngAux (skip : Nat) (prev : Option Char) : List Char → List Char
  | [] => []
  | c :: cs =>
    match skip with
    | n + 1 => removeEngAux n (some c) cs
    | 0 =>
      match matchEngAt prev (c :: cs) with
      | some (_, rest) => removeEngAux (cs.length - rest.length) (some c) cs
      | none => c :: removeEngAux 0 (some c) cs

/-- First substitution of clean_eng_tag_from_title
(generate-github-report.py line 57). -/
def removeEng (cs : List Char) : List Char := removeEngAux 0 none cs

/-- Second substitution: `re.sub(r'\[\s*\]', '', ...)` (line 59), as a
left-to-right scan.  `pending = some sp` records an already-read '[' and
the following whitespace run `sp` (reversed) that may still close into an
empty bracket pair. -/
def removeBracketsAux (pending : Option (List Char)) : List Char → List Char
  | [] =>
    match pending with
    | none => []
    | some sp => '[' :: sp.reverse
  | c :: cs =>
    match pending with
    | none =>
      if c == '[' then removeBracketsAux (some []) cs
      else c :: removeBracketsAux none cs
    | some sp =>
      if isSpaceChar c then removeBracketsAux (some (c :: sp)) cs
      else if c == ']' then removeBracketsAux none cs
      else if c == '[' then '[' :: sp.reverse ++ removeBracketsAux (some []) cs
      else '[' :: sp.reverse ++ c :: removeBracketsAux none cs

def removeEmptyBrackets (cs : List Char) : List Char := removeBracketsAux none cs

/-- Third substitution: `re.sub(r'\s+', ' ', ...)` (line 61): every maximal
whitespace run becomes one space.  `prevSpace` records whether the previous
character was whitespace (a run already emitted as ' '). -/
def collapseAux (prevSpace : Bool) : List Char → List Char
  | [] => []
  | c :: cs =>
    if isSpaceChar c then
      if prevSpace then collapseAux true cs
      else ' ' :: collapseAux true cs
    else c :: collapseAux false cs

def collapseSpaces (cs : List Char) : List Char := collapseAux false cs

/-- Python str.strip(): drop whitespace from both ends. -/
def stripEnds (cs : List Char) : List Char :=
  ((cs.dropWhile isSpaceChar).reverse.dropWhile isSpaceChar).reverse

/-- clean_eng_tag_from_title (generate-github-report.py lines 54-62):
remove all eng-tag matches, then now-empty bracket pairs, collapse
whitespace runs, and strip the ends. -/
def clean_eng_tag_from_title (title : String) : String :=
  String.mk (stripEnds (collapseSpaces (removeEmptyBrackets (removeEng title.toList))))

/-- Task-label formatting of generate-github-report.py main, lines 194-204:
the cleaned title suffixed with " #" + the extracted eng tag, or with
" #" + the repository name when no tag is found. -/
def task_name (title repo : String) : String :=
  match extract_eng_tag title with
  | some tag => clean_eng_tag_from_title title ++ " #" ++ tag
  | none => clean_eng_tag_from_title title ++ " #" ++ repo

/-- How a script run ends at an identity check: either it stops there
(with the given process exit code and stderr line) or it proceeds. -/
inductive CheckResult where
  | stops (exitCode : Nat) (errLine : String) : CheckResult
  | proceeds : CheckResult
deriving DecidableEq, Repr

/-- The user-email check of generate-github-report.py main (lines 77-81):
when `git config user.email` yields nothing (command failure or empty
output), main prints to stderr and executes a bare `return`, so the
process still ends NORMALLY with exit code 0. -/
def github_email_check (user_email : Option String) : CheckResult :=
  match user_email with
  | none => CheckResult.stops 0 "Error: Could not get git user email"
  | some _ => CheckResult.proceeds

/-- The user-id check of generate-slack-report.py main (lines 192-202):
when neither --slack-user-id nor SLACK_USER_ID provides an id, main prints
to stderr and calls sys.exit(1). -/
def slack_user_id_check (slack_user_id : Option String) : CheckResult :=
  match slack_user_id with
  | none => CheckResult.stops 1
      "Error: SLACK_USER_ID not set. Either set the environment variable or use --slack-user-id"
  | some _ => CheckResult.proceeds

/-- A raw huddle record from slack_huddles.json: `huddle.get(...)` may
yield Nothing for any field. -/
structure Huddle where
  id : Option String
  participant_history : List String
  date_start : Option Int
  date_end : Option Int
deriving DecidableEq, Repr

/-- Python truthiness of `huddle.get('date_start')`: the check
`if not date_start or not date_end: continue` skips the huddle when the
field is absent OR equal to 0 (0 is falsy). -/
def truthyTime : Option Int → Option Int
  | none => none
  | some t => if t = 0 then none else some t

/-- A filtered huddle as built by filter_slack_huddles
(generate-slack-report.py lines 118-161). -/
structure FilteredHuddle where
  id : Option String
  start_time : Int
  stop_time : Int
  duration_minutes : Int
  participants : List String
  timestamp : Int
deriving DecidableEq, Repr

/-- filter_slack_huddles (generate-slack-report.py lines 118-161).
`rangeStart` and `rangeStop` are the parsed date-range bounds in epoch
seconds: midnight opening the start date and 23:59:59 of the end date.
A huddle is kept when the user id occurs in participant_history, both
timestamps are present and truthy, and the huddle is not entirely outside
the range (`huddle_end < start_dt or huddle_start > end_dt`).
`duration_minutes = int((date_end - date_start) / 60)` truncates toward
zero. -/
def filter_slack_huddles (huddles : List Huddle) (user_id : String)
    (rangeStart rangeStop : Int) : List FilteredHuddle :=
  huddles.filterMap (fun h =>
    if user_id ∈ h.participant_history then
      match truthyTime h.date_start, truthyTime h.date_end with
      | some ds, some de =>
        if de < rangeStart || ds > rangeStop then none
        else some
          { id := h.id
            start_time := ds
            stop_time := de
            duration_minutes := (de - ds).tdiv 60
            participants := h.participant_history.filter (fun p => p ≠ user_id)
            timestamp := ds }
      | _, _ => none
    else none)

/-- Task building from filtered huddles (generate-slack-report.py main,
lines 235-248): every filtered huddle becomes one task named
"Slack huddle #meetings" (format_huddle_task_name) with a single session
`[timestamp, timestamp + duration_minutes * 60]` and sort key the huddle's
start timestamp. -/
def slack_tasks (filtered : List FilteredHuddle) : List Task :=
  filtered.map (fun h =>
    { name := "Slack huddle #meetings"
      sessions := [⟨h.timestamp, h.timestamp + h.duration_minutes * 60⟩]
      sort_timestamp := h.timestamp })

/-- Modelled from the amended claim's words, for comparison with the code:
a qualifying huddle (user listed, truthy timestamps, interval not outside
the range) yields exactly one task labeled "Slack huddle #meetings" whose
single session starts at date_start and ends at
date_start + 60 * ((date_end - date_start) truncated-div 60), with sort
key date_start; any other huddle yields nothing. -/
def huddleTaskSpec (user_id : String) (rangeStart rangeStop : Int)
    (h : Huddle) : Option Task :=
  match truthyTime h.date_start, truthyTime h.date_end with
  | some ds, some de =>
    if user_id ∈ h.participant_history ∧ ¬ de < rangeStart ∧ ¬ ds > rangeStop then
      some ⟨"Slack huddle #meetings", [⟨ds, ds + (de - ds).tdiv 60 * 60⟩], ds⟩
    else none
  | _, _ => none

theorem mergeInto_head :
    ∀ (l : List Session) (cur : Session),
      ∃ e tl, mergeInto cur l = ⟨cur.start, e⟩ :: tl ∧ cur.stop ≤ e
  | [], cur => ⟨cur.stop, [], rfl, le_refl _⟩
  | c :: rest, cur => by
    by_cases h : c.start ≤ cur.stop
    · obtain ⟨e, tl, heq, hle⟩ := mergeInto_head rest ⟨cur.start, max cur.stop c.stop⟩
      exact ⟨e, tl, by simp [mergeInto, h, heq], le_trans (le_max_left _ _) hle⟩
    · exact ⟨cur.stop, mergeInto c rest, by simp [mergeInto, h], le_refl _⟩

theorem mergeInto_chain :
    ∀ (l : List Session) (cur : Session),
      (∀ c ∈ l, cur.start ≤ c.start) →
      l.Pairwise (fun a b => a.start ≤ b.start) →
      (mergeInto cur l).Chain' sep
  | [], cur, _, _ => by simp [mergeInto]
  | c :: rest, cur, hle, hs => by
    rw [List.pairwise_cons] at hs
    by_cases h : c.start ≤ cur.stop
    · rw [mergeInto, if_pos h]
      exact mergeInto_chain rest ⟨cur.start, max cur.stop c.stop⟩
        (fun d hd => le_trans (hle c (by simp)) (hs.1 d hd)) hs.2
    · rw [mergeInto, if_neg h]
      obtain ⟨e, tl, heq, -⟩ := mergeInto_head rest c
      rw [heq]
      refine List.Chain'.cons ?_ ?_
      · exact lt_of_not_le h
      · rw [← heq]
        exact mergeInto_chain rest c (fun d hd => hs.1 d hd) hs.2

theorem mergeInto_wf :
    ∀ (l : List Session) (cur : Session),
      cur.start ≤ cur.stop →
      (∀ c ∈ l, c.start ≤ c.stop) →
      ∀ s ∈ mergeInto cur l, s.start ≤ s.stop
  | [], cur, hcur, _, s, hs => by
    simp [mergeInto] at hs; subst hs; exact hcur
  | c :: rest, cur, hcur, hwf, s, hs => by
    by_cases h : c.start ≤ cur.stop
    · rw [mergeInto, if_pos h] at hs
      exact mergeInto_wf rest ⟨cur.start, max cur.stop c.stop⟩
        (le_trans hcur (le_max_left _ _))
        (fun d hd => hwf d (by simp [hd])) s hs
    · rw [mergeInto, if_neg h] at hs
      rcases List.mem_cons.mp hs with hs | hs
      · subst hs; exact hcur
      · exact mergeInto_wf rest c (hwf c (by simp)) (fun d hd => hwf d (by simp [hd])) s hs

theorem mergeInto_covers :
    ∀ (l : List Session) (cur : Session),
      (∀ c ∈ l, cur.start ≤ c.start) →
      l.Pairwise (fun a b => a.start ≤ b.start) →
      ∀ x : Int, covers (mergeInto cur l) x ↔ (cur.start ≤ x ∧ x ≤ cur.stop) ∨ covers l x
  | [], cur, _, _, x => by simp [mergeInto, covers]
  | c :: rest, cur, hle, hs, x => by
    rw [List.pairwise_cons] at hs
    by_cases h : c.start ≤ cur.stop
    · rw [mergeInto, if_pos h]
      rw [mergeInto_covers rest ⟨cur.start, max cur.stop c.stop⟩
        (fun d hd => le_trans (hle c (by simp)) (hs.1 d hd)) hs.2 x]
      have hac : cur.start ≤ c.start := hle c (by simp)
      constructor
      · rintro (⟨h1, h2⟩ | hcov)
        · have h1' : cur.start ≤ x := h1
          have h2' : x ≤ max cur.stop c.stop := h2
          rcases le_or_lt x cur.stop with hx | hx
          · exact Or.inl ⟨h1', hx⟩
          · refine Or.inr ⟨c, by simp, le_trans h (le_of_lt hx), ?_⟩
            rcases max_cases cur.stop c.stop with ⟨hm, hm'⟩ | ⟨hm, hm'⟩ <;> omega
        · obtain ⟨t, ht, hmem⟩ := hcov
          exact Or.inr ⟨t, List.mem_cons_of_mem c ht, hmem⟩
      · rintro (⟨h1, h2⟩ | ⟨t, ht, h1, h2⟩)
        · exact Or.inl ⟨h1, le_trans h2 (le_max_left _ _)⟩
        · rcases List.mem_cons.mp ht with ht | ht
          · subst ht
            exact Or.inl ⟨le_trans hac h1, le_trans h2 (le_max_right _ _)⟩
          · exact Or.inr ⟨t, ht, h1, h2⟩
    · rw [mergeInto, if_neg h]
      have hrec := mergeInto_covers rest c (fun d hd => hs.1 d hd) hs.2 x
      constructor
      · rintro ⟨t, ht, h1, h2⟩
        rcases List.mem_cons.mp ht with ht | ht
        · subst ht; exact Or.inl ⟨h1, h2⟩
        · rcases (hrec.mp ⟨t, ht, h1, h2⟩) with hc | hcov
          · exact Or.inr ⟨c, by simp, hc⟩
          · obtain ⟨u, hu, hux⟩ := hcov
            exact Or.inr ⟨u, List.mem_cons_of_mem c hu, hux⟩
      · rintro (⟨h1, h2⟩ | ⟨t, ht, h1, h2⟩)
        · exact ⟨cur, by simp, h1, h2⟩
        · rcases List.mem_cons.mp ht with ht | ht

          · subst ht
            obtain ⟨u, hu, hux⟩ := hrec.mpr (Or.inl ⟨h1, h2⟩)
            exact ⟨u, by simp [hu], hux⟩
          · obtain ⟨u, hu, hux⟩ := hrec.mpr (Or.inr ⟨t, ht, h1, h2⟩)
            exact ⟨u, by simp [hu], hux⟩

theorem sep_all :
    ∀ (L : List Session) (s : Session),
      (∀ t ∈ L, t.start ≤ t.stop) → (s :: L).Chain' sep → ∀ t ∈ L, sep s t
  | [], _, _, _, t, ht => absurd ht (List.not_mem_nil t)
  | u :: L, s, hwf, hc, t, ht => by
    rw [List.chain'_cons] at hc
    rcases List.mem_cons.mp ht with ht | ht
    · subst ht; exact hc.1
    · have hu := sep_all L u (fun r hr => hwf r (by simp [hr])) hc.2 t ht
      have h1 : s.stop < u.start := hc.1
      have h2 : u.start ≤ u.stop := hwf u (by simp)
      unfold sep at *
      omega

theorem sep_chain_pairwise :
    ∀ {L : List Session}, (∀ s ∈ L, s.start ≤ s.stop) → L.Chain' sep →
      L.Pairwise sep
  | [], _, _ => List.Pairwise.nil
  | s :: L, hwf, hc => by
    refine List.pairwise_cons.mpr
      ⟨sep_all L s (fun t ht => hwf t (by simp [ht])) hc, ?_⟩
    exact sep_chain_pairwise (fun t ht => hwf t (by simp [ht]))
      ((List.chain'_cons'.mp hc).2)

theorem mergeSessions_chain (l : List Session)
    (hs : l.Pairwise (fun a b => a.start ≤ b.start)) :
    (mergeSessions l).Chain' sep := by
  cases l with
  | nil => simp [mergeSessions]
  | cons c rest =>
    rw [List.pairwise_cons] at hs
    exact mergeInto_chain rest c hs.1 hs.2

theorem mergeInto_of_sep :
    ∀ (l : List Session) (cur : Session), (cur :: l).Chain' sep →
      mergeInto cur l = cur :: l
  | [], cur, _ => rfl
  | c :: rest, cur, hc => by
    rw [List.chain'_cons] at hc
    rw [mergeInto, if_neg (not_le_of_lt hc.1), mergeInto_of_sep rest c hc.2]

theorem mergeSessions_of_sep (l : List Session) (hc : l.Chain' sep) :
    mergeSessions l = l := by
  cases l with
  | nil => rfl
  | cons c rest => exact mergeInto_of_sep rest c hc

theorem covers_cons (c : Session) (l : List Session) (x : Int) :
    covers (c :: l) x ↔ (c.start ≤ x ∧ x ≤ c.stop) ∨ covers l x := by
  unfold covers
  constructor
  · rintro ⟨s, hs, hx⟩
    rcases List.mem_cons.mp hs with hs | hs
    · subst hs; exact Or.inl hx
    · exact Or.inr ⟨s, hs, hx⟩
  · rintro (hx | ⟨s, hs, hx⟩)
    · exact ⟨c, by simp, hx⟩
    · exact ⟨s, List.mem_cons_of_mem c hs, hx⟩

/-- C1: for every sequence of candidate intervals (each with start ≤ end)
sorted ascending by start time, the session merger produces sessions that
cover exactly the union of the inputs (stated pointwise at `x`), are
well-formed and ordered by start, are pairwise disjoint (each ends strictly
before the next starts), and are minimal: no two adjacent output sessions
satisfy the merge trigger `next.start ≤ current.stop`. -/
theorem merger_correct (l : List Session) (x : Int)
    (hwf : ∀ c ∈ l, c.start ≤ c.stop)
    (hsorted : l.Pairwise (fun a b => a.start ≤ b.start)) :
    (covers (mergeSessions l) x ↔ covers l x)
    ∧ (∀ s ∈ mergeSessions l, s.start ≤ s.stop)
    ∧ (mergeSessions l).Pairwise (fun s t => s.start ≤ t.start)
    ∧ (mergeSessions l).Pairwise sep
    ∧ (mergeSessions l).Chain' (fun s t => ¬ t.start ≤ s.stop) := by
  have hchain : (mergeSessions l).Chain' sep := mergeSessions_chain l hsorted
  have hwfout : ∀ s ∈ mergeSessions l, s.start ≤ s.stop := by
    cases l with
    | nil => simp [mergeSessions]
    | cons c rest =>
      exact mergeInto_wf rest c (hwf c (by simp)) (fun d hd => hwf d (by simp [hd]))
  have hpw : (mergeSessions l).Pairwise sep := sep_chain_pairwise hwfout hchain
  refine ⟨?_, hwfout, ?_, hpw, hchain.imp (fun _ _ h => not_le_of_lt h)⟩
  · cases l with
    | nil => simp [mergeSessions]
    | cons c rest =>
      rw [List.pairwise_cons] at hsorted
      rw [mergeSessions, mergeInto_covers rest c hsorted.1 hsorted.2 x, covers_cons]
  · refine hpw.imp_of_mem ?_
    intro s t hs _ hst
    have h1 : s.start ≤ s.stop := hwfout s hs
    have h2 : s.stop < t.start := hst
    omega

/-- Witness for `merger_correct` at the candidate list
`[[0,30], [20,50], [100,130]]` and the point `x = 40`. -/
theorem merger_correct_witness :
    (∀ c ∈ [Session.mk 0 30, Session.mk 20 50, Session.mk 100 130], c.start ≤ c.stop)
    ∧ ([Session.mk 0 30, Session.mk 20 50, Session.mk 100 130].Pairwise
        (fun a b => a.start ≤ b.start))
    ∧ ((covers (mergeSessions [Session.mk 0 30, Session.mk 20 50, Session.mk 100 130]) 40
          ↔ covers [Session.mk 0 30, Session.mk 20 50, Session.mk 100 130] 40)
        ∧ (∀ s ∈ mergeSessions [Session.mk 0 30, Session.mk 20 50, Session.mk 100 130],
            s.start ≤ s.stop)
        ∧ (mergeSessions [Session.mk 0 30, Session.mk 20 50, Session.mk 100 130]).Pairwise
            (fun s t => s.start ≤ t.start)
        ∧ (mergeSessions [Session.mk 0 30, Session.mk 20 50, Session.mk 100 130]).Pairwise sep
        ∧ (mergeSessions [Session.mk 0 30, Session.mk 20 50, Session.mk 100 130]).Chain'
            (fun s t => ¬ t.start ≤ s.stop)) :=
  ⟨by decide, by decide,
    merger_correct [Session.mk 0 30, Session.mk 20 50, Session.mk 100 130] 40
      (by decide) (by decide)⟩

/-- C2: the session merger is idempotent on every input sorted ascending by
start: running it on its own output returns the output unchanged. -/
theorem merger_idempotent (l : List Session)
    (hsorted : l.Pairwise (fun a b => a.start ≤ b.start)) :
    mergeSessions (mergeSessions l) = mergeSessions l :=
  mergeSessions_of_sep _ (mergeSessions_chain l hsorted)

/-- Witness for `merger_idempotent` at `[[0,30], [20,50], [100,130]]`. -/
theorem merger_idempotent_witness :
    ([Session.mk 0 30, Session.mk 20 50, Session.mk 100 130].Pairwise
      (fun a b => a.start ≤ b.start))
    ∧ mergeSessions (mergeSessions [Session.mk 0 30, Session.mk 20 50, Session.mk 100 130])
        = mergeSessions [Session.mk 0 30, Session.mk 20 50, Session.mk 100 130] :=
  ⟨by decide,
    merger_idempotent [Session.mk 0 30, Session.mk 20 50, Session.mk 100 130] (by decide)⟩

/-- C3: get_date_range with no explicit dates, for every current date: on
a Monday the resolved range is the previous Monday through the previous
Sunday; on any other weekday it is the current week's Monday through today
inclusive; in all cases the output is the two formatted calendar-date
strings of a start ≤ end pair, with no error path (the function is
total). -/
theorem date_range_resolver (d : Int) :
    (get_date_range_days d).1 ≤ (get_date_range_days d).2
    ∧ ((get_date_range_days d).1 + 3) % 7 = 0
    ∧ (if (d + 3) % 7 = 0
        then get_date_range_days d = (d - 7, d - 1) ∧ ((d - 1) + 3) % 7 = 6
        else get_date_range_days d = (d - (d + 3) % 7, d)
          ∧ d - 6 ≤ (get_date_range_days d).1 ∧ (get_date_range_days d).2 = d)
    ∧ get_date_range d
        = (fmtYmd (get_date_range_days d).1, fmtYmd (get_date_range_days d).2) := by
  refine ⟨?_, ?_, ?_, rfl⟩ <;>
    by_cases h : (d + 3) % 7 = 0 <;>
    simp only [get_date_range_days, h, if_true, if_false, if_pos, if_neg, not_false_iff] <;>
    simp [h] <;>
    omega

/-- C4 as stated is false: when no eng token occurs, the code does not
suffix the raw title with the repository name; it still removes empty
bracket pairs and collapses runs of whitespace first.  The title
"Improve  caching" (two spaces) with repository "billing-service" yields
"Improve caching #billing-service", not "Improve  caching
#billing-service". -/
theorem task_name_counterexample :
    task_name "Improve  caching" "billing-service" = "Improve caching #billing-service"
    ∧ task_name "Improve  caching" "billing-service" ≠ "Improve  caching #billing-service" := by
  constructor <;> decide

/-- C4 amended: for every title, the label is the CLEANED title (all eng
pattern matches removed, then now-empty bracket pairs removed, whitespace
runs collapsed and the ends stripped) suffixed with " #" + the extracted
eng tag when the pattern matches, and with " #" + the repository name
otherwise; the spec's two examples hold as stated. -/
theorem task_name_amended (title repo : String) :
    task_name title repo
      = clean_eng_tag_from_title title ++ " #" ++ (extract_eng_tag title).getD repo
    ∧ task_name "Fix login bug [eng-482]" "any" = "Fix login bug #eng482"
    ∧ task_name "Improve caching" "billing-service" = "Improve caching #billing-service" := by
  refine ⟨?_, by decide, by decide⟩
  unfold task_name
  cases extract_eng_tag title <;> simp

theorem taskLE_trans (a b c : Task) :
    (decide (a.sort_timestamp ≤ b.sort_timestamp)) = true →
    (decide (b.sort_timestamp ≤ c.sort_timestamp)) = true →
    (decide (a.sort_timestamp ≤ c.sort_timestamp)) = true := by
  simp only [decide_eq_true_eq]
  omega

theorem taskLE_total (a b : Task) :
    ((decide (a.sort_timestamp ≤ b.sort_timestamp))
      || (decide (b.sort_timestamp ≤ a.sort_timestamp))) = true := by
  simp only [Bool.or_eq_true, decide_eq_true_eq]
  omega

theorem sortTasks_sorted (tasks : List Task) :
    (sortTasks tasks).Pairwise (fun a b => a.sort_timestamp ≤ b.sort_timestamp) := by
  have h := List.sorted_mergeSort taskLE_trans taskLE_total tasks
  exact h.imp (fun hab => by simpa using hab)

theorem sortTasks_perm (tasks : List Task) : (sortTasks tasks).Perm tasks :=
  List.mergeSort_perm tasks _

theorem sortTasks_stable (tasks : List Task) (a b : Task)
    (hsub : [a, b].Sublist tasks) (hab : a.sort_timestamp ≤ b.sort_timestamp) :
    [a, b].Sublist (sortTasks tasks) :=
  List.pair_sublist_mergeSort taskLE_trans taskLE_total (decide_eq_true hab) hsub

/-- C5: for every input task list the rendered report lists the tasks
stably sorted ascending by sort_timestamp regardless of input order: the
output is built from `sortTasks tasks`, which is sorted by the key, a
permutation of the input, and stable (any pair appearing in key order in
the input keeps its relative order). -/
theorem renderer_ordering (tasks : List Task) (a b : Task) (h : tasks ≠ []) :
    (format_time_report tasks).2
      = some (String.intercalate "\n"
          (reportHeader ++ ((sortTasks tasks).map renderTask).flatten))
    ∧ (sortTasks tasks).Pairwise (fun t u => t.sort_timestamp ≤ u.sort_timestamp)
    ∧ (sortTasks tasks).Perm tasks
    ∧ ([a, b].Sublist tasks → a.sort_timestamp ≤ b.sort_timestamp →
        [a, b].Sublist (sortTasks tasks)) := by
  refine ⟨?_, sortTasks_sorted tasks, sortTasks_perm tasks, sortTasks_stable tasks a b⟩
  simp [format_time_report, h]

/-- Witness for `renderer_ordering` at a three-task list given out of
order, with two tasks sharing the key 5. -/
theorem renderer_ordering_witness :
    (([⟨"b", [], 5⟩, ⟨"a", [], 3⟩, ⟨"c", [], 5⟩] : List Task) ≠ [])
    ∧ ((format_time_report [(⟨"b", [], 5⟩ : Task), ⟨"a", [], 3⟩, ⟨"c", [], 5⟩]).2
        = some (String.intercalate "\n"
            (reportHeader
              ++ ((sortTasks [⟨"b", [], 5⟩, ⟨"a", [], 3⟩, ⟨"c", [], 5⟩]).map renderTask).flatten))
      ∧ (sortTasks [(⟨"b", [], 5⟩ : Task), ⟨"a", [], 3⟩, ⟨"c", [], 5⟩]).Pairwise
          (fun t u => t.sort_timestamp ≤ u.sort_timestamp)
      ∧ (sortTasks [(⟨"b", [], 5⟩ : Task), ⟨"a", [], 3⟩, ⟨"c", [], 5⟩]).Perm
          [⟨"b", [], 5⟩, ⟨"a", [], 3⟩, ⟨"c", [], 5⟩]
      ∧ ([(⟨"b", [], 5⟩ : Task), ⟨"c", [], 5⟩].Sublist
            [⟨"b", [], 5⟩, ⟨"a", [], 3⟩, ⟨"c", [], 5⟩]
          → (Task.mk "b" [] 5).sort_timestamp ≤ (Task.mk "c" [] 5).sort_timestamp
          → [(⟨"b", [], 5⟩ : Task), ⟨"c", [], 5⟩].Sublist
              (sortTasks [⟨"b", [], 5⟩, ⟨"a", [], 3⟩, ⟨"c", [], 5⟩]))) :=
  ⟨by decide,
    renderer_ordering [⟨"b", [], 5⟩, ⟨"a", [], 3⟩, ⟨"c", [], 5⟩]
      ⟨"b", [], 5⟩ ⟨"c", [], 5⟩ (by decide)⟩

/-- C6: for a session with start ≤ end the emitted line is the session's
start formatted 'DD Mon YYYY, HH:MM' (local time modeled as UTC) followed
by the duration in whole minutes, and the code's toward-zero division
equals the claimed floor((end - start) / 60); a session of exactly 3600
seconds yields a "60 min" line; and for a single one-session task this is
exactly the line format_time_report emits after the header and the two
task lines. -/
theorem session_line_correct (s : Session) (nm : String) (k : Int)
    (h : s.start ≤ s.stop) :
    renderSession s
      = "      - " ++ formatTimestamp s.start ++ ", "
        ++ toString ((s.stop - s.start).fdiv 60) ++ " min"
    ∧ (s.stop - s.start = 3600 →
        renderSession s = "      - " ++ (formatTimestamp s.start ++ ", 60 min"))
    ∧ (format_time_report [⟨nm, [s], k⟩]).2
      = some (String.intercalate "\n"
          (reportHeader
            ++ ["  - taskName: \"" ++ nm ++ "\"", "    focus:", renderSession s])) := by
  have hdiv : (s.stop - s.start).tdiv 60 = (s.stop - s.start).fdiv 60 :=
    (Int.fdiv_eq_tdiv (by omega) (by norm_num)).symm
  refine ⟨?_, ?_, ?_⟩
  · unfold renderSession
    rw [hdiv]
  · intro h36
    unfold renderSession
    rw [h36]
    have hlit : ", " ++ (toString ((3600 : Int).tdiv 60) ++ " min") = ", 60 min" := by decide
    simp only [String.append_assoc]
    rw [hlit]
  · simp [format_time_report, sortTasks, renderTask]

/-- Witness for `session_line_correct` at the session [0, 3600]. -/
theorem session_line_correct_witness :
    ((Session.mk 0 3600).start ≤ (Session.mk 0 3600).stop)
    ∧ renderSession (Session.mk 0 3600) = "      - 01 Jan 1970, 00:00, 60 min" := by
  refine ⟨by decide, ?_⟩
  have hline := (session_line_correct (Session.mk 0 3600) "t" 0 (by decide)).2.1 (by decide)
  rw [hline]
  decide

/-- C7: with an empty task list format_time_report returns no report
output, main prints "No tasks to report" on stderr, nothing on stdout,
and the process exits 0. -/
theorem empty_tasks_report :
    format_report_main [] = (0, [], ["No tasks to report"])
    ∧ (format_time_report []).2 = none := by
  constructor <;> rfl

/-- C8 as stated is false for the source-control aggregator: with no
resolvable git user email, main prints the error to stderr and executes a
bare `return`, so the process ends normally with exit code 0, not
non-zero. -/
theorem identity_exit_counterexample :
    ¬ (∀ c msg, github_email_check none = CheckResult.stops c msg → c ≠ 0) := by
  intro hc
  exact hc 0 "Error: Could not get git user email" rfl rfl

/-- C8 amended: a missing huddle user id (no CLI flag, no environment
variable) stops the run with a stderr report and exit code 1 (non-zero);
a missing git user email also stops the run with a stderr report, but the
process exits with code 0. -/
theorem identity_exit_amended :
    slack_user_id_check none
      = CheckResult.stops 1
          "Error: SLACK_USER_ID not set. Either set the environment variable or use --slack-user-id"
    ∧ github_email_check none = CheckResult.stops 0 "Error: Could not get git user email"
    ∧ (1 : Nat) ≠ 0 :=
  ⟨rfl, rfl, by decide⟩

/-- C9 as stated is false: the produced session does not end at the
huddle's leave time date_end; its end is date_start + 60 * (whole minutes
of the duration).  A huddle [1000, 1090] (90 seconds) for a participating
user inside the range yields the session [1000, 1060], not
[1000, 1090]. -/
theorem huddle_task_counterexample :
    slack_tasks (filter_slack_huddles
        [⟨none, ["U1"], some 1000, some 1090⟩] "U1" 0 100000)
      = [⟨"Slack huddle #meetings", [⟨1000, 1060⟩], 1000⟩]
    ∧ (⟨1000, 1060⟩ : Session) ≠ ⟨1000, 1090⟩ := by
  constructor <;> decide

/-- C9 amended: every huddle whose participant_history lists the user id,
whose both timestamps are present and truthy (nonzero), and whose interval
is not outside the range (excluded exactly when it ends before the range
start or starts after the range end) yields exactly one task labeled
"Slack huddle #meetings" with sort key date_start and a single session
[date_start, date_start + 60 * ((date_end - date_start) / 60 truncated)];
all other huddles yield nothing. -/
theorem huddle_tasks_amended (huddles : List Huddle) (user : String)
    (rangeStart rangeStop : Int) :
    slack_tasks (filter_slack_huddles huddles user rangeStart rangeStop)
      = huddles.filterMap (huddleTaskSpec user rangeStart rangeStop) := by
  unfold slack_tasks filter_slack_huddles
  rw [List.map_filterMap]
  refine List.filterMap_congr (fun h _ => ?_)
  unfold huddleTaskSpec
  by_cases hu : user ∈ h.participant_history
  · cases truthyTime h.date_start with
    | none => simp [hu]
    | some ds =>
      cases truthyTime h.date_end with
      | none => simp [hu]
      | some de =>
        by_cases h1 : de < rangeStart
        · simp [hu, h1]
        · by_cases h2 : ds > rangeStop
          · simp [hu, h1, h2]
          · simp [hu, h1, h2]
  · cases truthyTime h.date_start with
    | none => simp [hu]
    | some ds =>
      cases truthyTime h.date_end with
      | none => simp [hu]
      | some de => simp [hu]

/-- C10: format_time_report is not free of side effects on its argument:
after the call the caller's task list (the first component of the model's
state passing) is the stable ascending permutation of the input by
sort_timestamp, the tasks themselves unchanged as a multiset. -/
theorem render_sorts_in_place (tasks : List Task) (h : tasks ≠ []) :
    (format_time_report tasks).1 = sortTasks tasks
    ∧ (format_time_report tasks).1.Perm tasks
    ∧ (format_time_report tasks).1.Pairwise
        (fun a b => a.sort_timestamp ≤ b.sort_timestamp) := by
  have h1 : (format_time_report tasks).1 = sortTasks tasks := by
    simp [format_time_report, h]
  exact ⟨h1, h1 ▸ sortTasks_perm tasks, h1 ▸ sortTasks_sorted tasks⟩

/-- Witness for `render_sorts_in_place` at a two-task list given in
descending key order. -/
theorem render_sorts_in_place_witness :
    (([⟨"b", [], 5⟩, ⟨"a", [], 3⟩] : List Task) ≠ [])
    ∧ ((format_time_report [(⟨"b", [], 5⟩ : Task), ⟨"a", [], 3⟩]).1
        = sortTasks [⟨"b", [], 5⟩, ⟨"a", [], 3⟩]
      ∧ (format_time_report [(⟨"b", [], 5⟩ : Task), ⟨"a", [], 3⟩]).1.Perm
          [⟨"b", [], 5⟩, ⟨"a", [], 3⟩]
      ∧ (format_time_report [(⟨"b", [], 5⟩ : Task), ⟨"a", [], 3⟩]).1.Pairwise
          (fun a b => a.sort_timestamp ≤ b.sort_timestamp)) :=
  ⟨by decide, render_sorts_in_place [⟨"b", [], 5⟩, ⟨"a", [], 3⟩] (by decide)⟩

end Timereport
